import Mathlib

/-
Verification of the question-generation pipeline of app.py
(AiInterviewCoachAppbyARTy): the paraphraser, the salience extraction
inside generate_question_from_text, the URL fetcher, the seed-corpus
fallback chain of the Generate tab, and the batched orchestration loop.

Python strings are modelled as Lean String values; the Python string
primitives the source uses (split, strip, lower, startswith, slicing,
join) are re-implemented executably over the underlying character list,
one definition per Python primitive, so that every definition evaluates
on concrete inputs.  Ambient randomness (random.random, random.choice,
random.shuffle) is modelled by explicit oracle parameters: a coin per
call site and an arbitrary index or permutation, so theorems quantify
over every possible draw.
-/

set_option maxRecDepth 100000

deriving instance DecidableEq for Except

namespace AppModel

/-- Characters split helper: cuts a character list at every character
satisfying p, keeping empty pieces (as the Python str.split with an
explicit separator does). -/
def splitChars (p : Char → Bool) : List Char → List (List Char)
  | [] => [[]]
  | c :: cs =>
    let r := splitChars p cs
    if p c then [] :: r else (c :: r.headD []) :: r.tail

/-- Models the Python str.split() with no argument: split on whitespace
runs, dropping empty pieces. -/
def pySplitWs (s : String) : List String :=
  ((splitChars (fun c => c.isWhitespace) s.data).filter (fun w => w != [])).map String.mk

/-- Models the Python str.split with a one-character separator (and
str.splitlines for newline-separated text): empty pieces are kept. -/
def pySplitOn (sep : Char) (s : String) : List String :=
  (splitChars (fun c => c == sep) s.data).map String.mk

/-- Models the Python str.strip(): remove leading and trailing whitespace. -/
def pyStrip (s : String) : String :=
  String.mk (((s.data.dropWhile Char.isWhitespace).reverse.dropWhile Char.isWhitespace).reverse)

/-- Models the Python str.lower(). -/
def pyLower (s : String) : String := String.mk (s.data.map Char.toLower)

/-- Character-list version of the Python str.startswith. -/
def startsWithChars : List Char → List Char → Bool
  | _, [] => true
  | [], _ :: _ => false
  | c :: cs, d :: ds => c == d && startsWithChars cs ds

/-- Models the Python str.startswith(pat). -/
def pyStartsWith (s pat : String) : Bool := startsWithChars s.data pat.data

/-- Models the Python slice s[:n]. -/
def pyTake (s : String) (n : Nat) : String := String.mk (s.data.take n)

/-- Models the Python sep.join(l). -/
def joinWith (sep : String) : List String → String
  | [] => ""
  | [s] => s
  | s :: rest => s ++ sep ++ joinWith sep rest

/-- The read-only NLP services and the per-call random draws consumed by
paraphrase_simple and generate_question_from_text (app.py lines 50-66):
sent_tokenize, word_tokenize and pos_tag from nltk, the flattened lemma
list that app.py line 63 builds from wordnet.synsets (underscores already
replaced by spaces), the coin for random.random() < 0.28 at sentence si /
word wi, the index drawn by random.choice over the lemma list, the coin
for random.random() < 0.3, and the permutation applied by random.shuffle. -/
structure Env where
  sent_tokenize : String → List String
  word_tokenize : String → List String
  pos_tag : List String → List (String × String)
  synsetLemmas : String → List String
  subCoin : Nat → Nat → Bool
  pickIdx : Nat → Nat → Nat
  shuffleCoin : Bool
  shuffle : List String → List String

/-- The body of the inner loop of paraphrase_simple (app.py lines 57-67):
a word w tagged t is replaced only when the tag starts with NN or JJ, the
0.28 coin comes up, and some wordnet lemma differs case-insensitively
from w; the replacement is drawn from that filtered lemma list.  The
check *if syns* of line 62 is subsumed: empty synsets give an empty lemma
list, which leaves the word unchanged. -/
def substituteWord (env : Env) (si wi : Nat) (w t : String) : String :=
  if pyStartsWith t "NN" || pyStartsWith t "JJ" then
    if env.subCoin si wi then
      let lemmas := (env.synsetLemmas w).filter (fun x => pyLower x != pyLower w)
      if lemmas.isEmpty then w
      else lemmas.getD (env.pickIdx si wi % lemmas.length) w
    else w
  else w

/-- The word loop of app.py lines 56-67 over an already tagged sentence,
carrying the word position wi (used only to address the random draws). -/
def paraphraseWordsFrom (env : Env) (si : Nat) : Nat → List (String × String) → List String
  | _, [] => []
  | wi, (w, t) :: rest => substituteWord env si wi w t :: paraphraseWordsFrom env si (wi + 1) rest

/-- The new_words list built for one sentence (app.py lines 54-67). -/
def paraphraseWords (env : Env) (si : Nat) (tags : List (String × String)) : List String :=
  paraphraseWordsFrom env si 0 tags

/-- One rewritten sentence (app.py lines 54-68): tokenize, tag,
substitute, and rejoin with single spaces. -/
def paraphraseSentence (env : Env) (si : Nat) (sent : String) : String :=
  joinWith " " (paraphraseWords env si (env.pos_tag (env.word_tokenize sent)))

/-- The out_sents accumulation of app.py lines 52-68, carrying the
sentence position si (used only to address the random draws). -/
def paraphraseSentsFrom (env : Env) : Nat → List String → List String
  | _, [] => []
  | si, s :: rest => paraphraseSentence env si s :: paraphraseSentsFrom env (si + 1) rest

/-- The sentence list paraphrase_simple holds just before the final join
(app.py lines 51-71): per-sentence rewrites, then the optional shuffle of
line 70-71 when there is more than one sentence and the 0.3 coin comes up. -/
def paraphrase_sents (env : Env) (text : String) : List String :=
  let out_sents := paraphraseSentsFrom env 0 (env.sent_tokenize text)
  if 1 < out_sents.length ∧ env.shuffleCoin = true then env.shuffle out_sents else out_sents

/-- paraphrase_simple (app.py lines 42-72). -/
def paraphrase_simple (env : Env) (text : String) : String :=
  joinWith " " (paraphrase_sents env text)

/-- First-seen-order deduplication, the list(dict.fromkeys(nouns)) of
app.py line 87; seen accumulates the keys already emitted. -/
def dedupFirstAux (seen : List String) : List String → List String
  | [] => []
  | a :: l => if a ∈ seen then dedupFirstAux seen l else a :: dedupFirstAux (a :: seen) l

/-- list(dict.fromkeys(nouns)) of app.py line 87. -/
def dedupFirst (l : List String) : List String := dedupFirstAux [] l

/-- The term extraction of app.py lines 84-88: tokenize, tag, keep words
whose tag starts with NN and whose length exceeds 3, deduplicate keeping
first occurrences, take the first 3.  (nouns[:3] if nouns else [] equals
nouns.take 3, since take of the empty list is empty.) -/
def extractTerms (env : Env) (para : String) : List String :=
  let tags := env.pos_tag (env.word_tokenize para)
  let nouns := (tags.filter (fun p => pyStartsWith p.2 "NN" && decide (3 < p.1.length))).map Prod.fst
  (dedupFirst nouns).take 3

/-- Modelled from the claim wording, for comparison with extractTerms:
keep tokens whose tag is a common-noun category (NN or NNS in the Penn
tagset used by nltk.pos_tag) or an adjective category (tags starting
with JJ) and whose length exceeds 3, deduplicate first-seen, take 3. -/
def extractTermsClaim (env : Env) (para : String) : List String :=
  let tags := env.pos_tag (env.word_tokenize para)
  let kept := (tags.filter (fun p =>
    (p.2 == "NN" || p.2 == "NNS" || pyStartsWith p.2 "JJ") && decide (3 < p.1.length))).map Prod.fst
  (dedupFirst kept).take 3

/-- generate_question_from_text (app.py lines 74-95).  pick models the
index drawn by random.choice over the first five non-blank paragraphs. -/
def generate_question_from_text (env : Env) (pick : Nat) (text topic : String) : String :=
  let paras := (pySplitOn '\n' text).filter (fun p => pyStrip p != "")
  let paras := if paras.isEmpty then [text] else paras
  let firstFew := paras.take 5
  let para := firstFew.getD (pick % firstFew.length) ""
  let chosen := extractTerms env para
  if chosen.isEmpty then
    "Describe an advanced challenge in " ++ topic ++
      " that can arise from the technology discussed in the source, and propose a step-by-step resolution strategy."
  else
    "In a production scenario involving " ++ joinWith ", " (chosen.take 2) ++
      ", what are the top non-obvious trade-offs you would evaluate, and how would you mitigate the top two risks? (Tie it into " ++
      topic ++ " context.)"

/-- What fetch_text_from_url observes of a successfully retrieved and
parsed page (app.py lines 100-109): the paragraph texts inside the first
article element when one exists, and the paragraph texts of the whole
document.  Each entry models one p.get_text(separator=space, strip=True). -/
structure FetchedDoc where
  articleParas : Option (List String)
  allParas : List String

/-- The truncation of app.py lines 110-111: text[:max_chars] applied only
when len(text) > max_chars. -/
def truncTo (max_chars : Nat) (text : String) : String :=
  if max_chars < text.length then pyTake text max_chars else text

/-- fetch_text_from_url (app.py lines 98-114).  resp = none models every
path into the except clause (network error, timeout, non-success status
from raise_for_status, parse failure); the function then returns None.
On success the paragraph texts are joined with single spaces, preferring
the article container, and truncated to max_chars. -/
def fetch_text_from_url (resp : Option FetchedDoc) (max_chars : Nat) : Option String :=
  match resp with
  | none => none
  | some doc =>
    let text :=
      match doc.articleParas with
      | some ps => joinWith " " ps
      | none => joinWith " " doc.allParas
    some (truncTo max_chars text)

/-- The url list cleanup of app.py line 191: split the pasted text into
lines, strip each, drop blanks.  (extra_urls.splitlines() if extra_urls
else [] is subsumed: the empty string yields one blank line, dropped.) -/
def parseUrls (extra_urls : String) : List String :=
  ((pySplitOn '\n' extra_urls).map pyStrip).filter (fun u => u != "")

/-- topic.lower().split() of app.py line 205. -/
def topicWords (topic : String) : List String := pySplitWs (pyLower topic)

/-- The default_lookup dict of app.py lines 200-204. -/
def default_lookup : List (String × List String) :=
  [("devops", ["https://aws.amazon.com/devops/what-is-devops/"]),
   ("cloud", ["https://azure.microsoft.com/en-us/overview/what-is-cloud-computing/"]),
   ("rpa", ["https://www.uipath.com/rpa/robotic-process-automation"])]

/-- default_lookup.get(key, []) of app.py line 206. -/
def lookupDefault (key : String) : List String :=
  (default_lookup.lookup key).getD []

/-- One iteration of the fetch-and-keep loops of app.py lines 193-196 and
206-209: keep (u, t) only when the fetch returned text and the text is
truthy, that is non-empty. -/
def keepFetched (fetch : String → Option String) (u : String) : Option (String × String) :=
  match fetch u with
  | some t => if t != "" then some (u, t) else none
  | none => none

/-- The synthetic paragraph of app.py line 212. -/
def fallbackParagraph (topic : String) : String :=
  "This is a fallback paragraph about " ++ topic ++
    ". Focus on real-world constraints, scaling, security, and maintainability."

/-- The seed_texts construction of app.py lines 191-212: caller urls
first, then the curated defaults for the lower-cased first topic word,
then the local_fallback unit.  When the topic has no word at all,
topic.lower().split()[0] at line 205 raises IndexError; that exception
is modelled as the error branch. -/
def buildSeedCorpus (fetch : String → Option String) (topic : String) (extra_urls : String) :
    Except String (List (String × String)) :=
  let urls := parseUrls extra_urls
  let seed_texts := urls.filterMap (keepFetched fetch)
  if seed_texts.isEmpty then
    match topicWords topic with
    | [] => Except.error "IndexError: list index out of range"
    | key :: _ =>
      let seed_texts := (lookupDefault key).filterMap (keepFetched fetch)
      if seed_texts.isEmpty then
        Except.ok [("local_fallback", fallbackParagraph topic)]
      else Except.ok seed_texts
  else Except.ok seed_texts

/-- One row appended to saved_qs (app.py line 220). -/
structure QuestionRecord where
  interview_id : Option Nat
  topic : String
  q_text : String
  source_url : String
deriving DecidableEq

/-- The random draws consumed by the generation loop of app.py lines
215-219, one fresh set per iteration i: the NLP environment and inner
draws used by generate_question_from_text and paraphrase_simple, the
index drawn by random.choice(seed_texts), and the index drawn by
random.choice over the paragraph list. -/
structure GenParams where
  envAt : Nat → Env
  pickSeed : Nat → Nat
  pickPara : Nat → Nat

/-- The record built by iteration i of the loop (app.py lines 216-220):
draw a seed unit, compose a question from its text, paraphrase it, and
keep the seed identifier as source_url. -/
def mkRecord (P : GenParams) (i : Nat) (interview_id : Option Nat) (topic : String)
    (seeds : List (String × String)) : QuestionRecord :=
  let src := seeds.getD (P.pickSeed i % seeds.length) ("", "")
  let q1 := generate_question_from_text (P.envAt i) (P.pickPara i) src.2 topic
  let q2 := paraphrase_simple (P.envAt i) q1
  ⟨interview_id, topic, q2, src.1⟩

/-- One iteration of app.py lines 215-224 on the state (saved_qs,
batches already flushed): append the new record, and when saved_qs has
reached 15 entries flush it as one insert and clear it. -/
def genStep (P : GenParams) (interview_id : Option Nat) (topic : String)
    (seeds : List (String × String))
    (st : List QuestionRecord × List (List QuestionRecord)) (i : Nat) :
    List QuestionRecord × List (List QuestionRecord) :=
  let saved_qs := st.1 ++ [mkRecord P i interview_id topic seeds]
  if 15 ≤ saved_qs.length then ([], st.2 ++ [saved_qs]) else (saved_qs, st.2)

/-- The loop for i in range(n_q) of app.py lines 214-224, returning the
pending saved_qs and the flushed batches in order. -/
def genLoop (P : GenParams) (interview_id : Option Nat) (topic : String)
    (seeds : List (String × String)) (n : Nat) :
    List QuestionRecord × List (List QuestionRecord) :=
  (List.range n).foldl (genStep P interview_id topic seeds) ([], [])

/-- The full sequence of insert calls made to the questions store for one
generation run: the in-loop flushes of app.py line 223, then the trailing
flush of lines 225-226 guarded on saved_qs being non-empty. -/
def generateBatches (P : GenParams) (interview_id : Option Nat) (topic : String)
    (seeds : List (String × String)) (n : Nat) : List (List QuestionRecord) :=
  let st := genLoop P interview_id topic seeds n
  if st.1.isEmpty then st.2 else st.2 ++ [st.1]

/-- The st.success message of app.py line 227, shown after the loop. -/
def successMessage (n : Nat) : String :=
  "Generated and saved " ++ toString n ++
    " questions. You can now go to the Record tab to answer them (tab locked until generation)."

/-- What one generation run looks like at the Question Store boundary:
the argument of each insert call in order, the result the store returned
for each call, and the message reported to the user afterwards.  The
source discards the value of execute() at lines 223 and 226 and runs
st.success at line 227 unconditionally, so the report is the fixed
success message whatever the store answered. -/
structure RunOutcome where
  batches : List (List QuestionRecord)
  results : List Bool
  report : String
deriving DecidableEq

/-- The generation run of app.py lines 214-227 against a store whose
k-th insert call returns store k. -/
def generateRunOutcome (P : GenParams) (interview_id : Option Nat) (topic : String)
    (seeds : List (String × String)) (store : Nat → Bool) (n : Nat) : RunOutcome :=
  let B := generateBatches P interview_id topic seeds n
  ⟨B, (List.range B.length).map store, successMessage n⟩

/-- How many records the store actually persisted in a run: the total
size of the batches whose insert call succeeded. -/
def persistedCount (o : RunOutcome) : Nat :=
  ((((o.batches.zip o.results).filter (fun p => p.2)).map (fun p => p.1.length))).sum

/-- A minimal concrete environment: every tokenizer returns nothing, no
synonyms exist, every coin is false, the shuffle is the identity.  Used
to instantiate universally quantified theorems at a concrete point. -/
def trivEnv : Env :=
  ⟨fun _ => [], fun _ => [], fun _ => [], fun _ => [],
   fun _ _ => false, fun _ _ => 0, false, fun l => l⟩

/-- Concrete generation draws built over trivEnv. -/
def trivParams : GenParams := ⟨fun _ => trivEnv, fun _ => 0, fun _ => 0⟩

/-- A concrete environment with a small word tokenizer and tagger: one
sentence per non-empty text, whitespace word splitting, and a fixed tag
table (Kubernetes as proper noun NNP, robust as adjective JJ, the as
determiner DT, anything else NN). -/
def wordsEnv : Env :=
  ⟨fun s => if s = "" then [] else [s],
   fun s => pySplitWs s,
   fun ws => ws.map (fun w =>
     (w, if w = "Kubernetes" then "NNP"
         else if w = "robust" then "JJ"
         else if w = "the" then "DT" else "NN")),
   fun _ => [], fun _ _ => false, fun _ _ => 0, false, fun l => l⟩

/-- A concrete one-unit seed corpus. -/
def seeds0 : List (String × String) := [("local_fallback", "x")]

/-- An element selected by random.choice, modelled as indexing at an
arbitrary draw modulo the length, belongs to the (non-empty) list. -/
lemma getD_mod_mem {α : Type} (l : List α) (d : α) (k : Nat) (h : l ≠ []) :
    l.getD (k % l.length) d ∈ l := by
  have hlen : 0 < l.length := List.length_pos.mpr h
  have hk : k % l.length < l.length := Nat.mod_lt _ hlen
  rw [List.getD_eq_getElem?_getD, List.getElem?_eq_getElem hk]
  simp

/-- Position-wise description of the word loop: the output at position wi
is the substitution applied to the input pair at wi, with the draw
addressed at offset k + wi. -/
lemma paraphraseWordsFrom_getElem (env : Env) (si : Nat) :
    ∀ (tags : List (String × String)) (k wi : Nat),
      (paraphraseWordsFrom env si k tags)[wi]? =
        (tags[wi]?).map (fun p => substituteWord env si (k + wi) p.1 p.2) := by
  intro tags
  induction tags with
  | nil => intro k wi; simp [paraphraseWordsFrom]
  | cons a rest ih =>
    intro k wi
    obtain ⟨w, t⟩ := a
    cases wi with
    | zero => simp [paraphraseWordsFrom]
    | succ m =>
      simp only [paraphraseWordsFrom, List.getElem?_cons_succ, ih (k + 1) m]
      have : k + 1 + m = k + (m + 1) := by omega
      rw [this]

/-- A word whose tag is outside the NN and JJ categories is returned
unchanged by the substitution step. -/
lemma substituteWord_not_content (env : Env) (si wi : Nat) (w t : String)
    (h : (pyStartsWith t "NN" || pyStartsWith t "JJ") = false) :
    substituteWord env si wi w t = w := by
  simp [substituteWord, h]

/-- The substitution step either keeps the word or returns a lemma from
the filtered candidate list, whose lower-cased form differs from the
lower-cased original. -/
lemma substituteWord_cases (env : Env) (si wi : Nat) (w t : String) :
    substituteWord env si wi w t = w ∨
      (substituteWord env si wi w t ∈
          (env.synsetLemmas w).filter (fun x => pyLower x != pyLower w) ∧
        pyLower (substituteWord env si wi w t) ≠ pyLower w) := by
  unfold substituteWord
  by_cases h1 : (pyStartsWith t "NN" || pyStartsWith t "JJ") = true
  · rw [if_pos h1]
    by_cases h2 : env.subCoin si wi = true
    · rw [if_pos h2]
      by_cases h3 : ((env.synsetLemmas w).filter (fun x => pyLower x != pyLower w)).isEmpty
      · rw [if_pos h3]; exact Or.inl rfl
      · rw [if_neg h3]
        right
        have hne : (env.synsetLemmas w).filter (fun x => pyLower x != pyLower w) ≠ [] := by
          intro hc; rw [hc] at h3; exact h3 rfl
        have hmem := getD_mod_mem _ w (env.pickIdx si wi) hne
        refine ⟨hmem, ?_⟩
        have := (List.mem_filter.mp hmem).2
        exact bne_iff_ne.mp this
    · rw [if_neg h2]; exact Or.inl rfl
  · rw [if_neg h1]; exact Or.inl rfl

/-- The per-sentence rewrite loop preserves the number of sentences. -/
lemma paraphraseSentsFrom_length (env : Env) :
    ∀ (l : List String) (k : Nat), (paraphraseSentsFrom env k l).length = l.length := by
  intro l
  induction l with
  | nil => intro k; rfl
  | cons s rest ih => intro k; simp [paraphraseSentsFrom, ih (k + 1)]

/-- The first-seen deduplication only selects elements, in order. -/
lemma dedupFirstAux_sublist :
    ∀ (l seen : List String), List.Sublist (dedupFirstAux seen l) l := by
  intro l
  induction l with
  | nil => intro seen; simp [dedupFirstAux]
  | cons a rest ih =>
    intro seen
    by_cases h : a ∈ seen
    · simp only [dedupFirstAux, if_pos h]
      exact (ih seen).cons a
    · simp only [dedupFirstAux, if_neg h]
      exact (ih (a :: seen)).cons₂ a

/-- Nothing already recorded as seen is emitted again. -/
lemma dedupFirstAux_not_mem_seen :
    ∀ (l seen : List String) (a : String), a ∈ dedupFirstAux seen l → a ∉ seen := by
  intro l
  induction l with
  | nil => intro seen a ha; simp [dedupFirstAux] at ha
  | cons b rest ih =>
    intro seen a ha
    by_cases h : b ∈ seen
    · rw [dedupFirstAux, if_pos h] at ha
      exact ih seen a ha
    · rw [dedupFirstAux, if_neg h] at ha
      rcases List.mem_cons.mp ha with rfl | ha
      · exact h
      · intro hc
        exact ih (b :: seen) a ha (List.mem_cons_of_mem b hc)

/-- The first-seen deduplication emits no duplicates. -/
lemma dedupFirstAux_nodup : ∀ (l seen : List String), (dedupFirstAux seen l).Nodup := by
  intro l
  induction l with
  | nil => intro seen; simp [dedupFirstAux]
  | cons b rest ih =>
    intro seen
    by_cases h : b ∈ seen
    · rw [dedupFirstAux, if_pos h]; exact ih seen
    · rw [dedupFirstAux, if_neg h]
      refine List.Nodup.cons ?_ (ih (b :: seen))
      intro hc
      exact dedupFirstAux_not_mem_seen rest (b :: seen) b hc (List.mem_cons_self b seen)

/-- Truncation really bounds the length by max_chars. -/
lemma truncTo_length_le (m : Nat) (t : String) : (truncTo m t).length ≤ m := by
  unfold truncTo pyTake
  by_cases h : m < t.length
  · rw [if_pos h]
    have : (String.mk (t.data.take m)).length = (t.data.take m).length := rfl
    rw [this, List.length_take]
    exact min_le_left m t.data.length
  · rw [if_neg h]
    omega

/-- The source_url of every record built by the loop body is the
identifier of a member of the seed corpus. -/
lemma mkRecord_source_mem (P : GenParams) (i : Nat) (iid : Option Nat) (topic : String)
    (seeds : List (String × String)) (h : seeds ≠ []) :
    (mkRecord P i iid topic seeds).source_url ∈ seeds.map Prod.fst := by
  unfold mkRecord
  exact List.mem_map_of_mem Prod.fst (getD_mod_mem seeds ("", "") (P.pickSeed i) h)

/-- Unrolling one iteration of the generation loop. -/
lemma genLoop_succ (P : GenParams) (iid : Option Nat) (topic : String)
    (seeds : List (String × String)) (n : Nat) :
    genLoop P iid topic seeds (n + 1) =
      genStep P iid topic seeds (genLoop P iid topic seeds n) n := by
  unfold genLoop
  rw [List.range_succ, List.foldl_append]
  rfl

/-- Sum of the sizes of batches that all hold 15 records. -/
lemma sum_map_length_const (l : List (List QuestionRecord)) (h : ∀ b ∈ l, b.length = 15) :
    (l.map List.length).sum = 15 * l.length := by
  induction l with
  | nil => simp
  | cons a rest ih =>
    simp only [List.map_cons, List.sum_cons, List.length_cons]
    rw [h a (List.mem_cons_self a rest), ih (fun b hb => h b (List.mem_cons_of_mem a hb))]
    ring

/-- The loop invariant of app.py lines 214-224: the pending batch never
exceeds 14 records after an iteration completes, the records seen so far
count exactly one per iteration, every flushed batch holds exactly 15
records, and (over a non-empty corpus) every record carries the
identifier of a corpus member. -/
lemma genLoop_inv (P : GenParams) (iid : Option Nat) (topic : String)
    (seeds : List (String × String)) :
    ∀ n : Nat,
      (genLoop P iid topic seeds n).1.length ≤ 14 ∧
      (genLoop P iid topic seeds n).1.length +
        ((genLoop P iid topic seeds n).2.map List.length).sum = n ∧
      (∀ b ∈ (genLoop P iid topic seeds n).2, b.length = 15) ∧
      (seeds ≠ [] →
        (∀ r ∈ (genLoop P iid topic seeds n).1, r.source_url ∈ seeds.map Prod.fst) ∧
        (∀ b ∈ (genLoop P iid topic seeds n).2, ∀ r ∈ b,
          r.source_url ∈ seeds.map Prod.fst)) := by
  intro n
  induction n with
  | zero =>
    refine ⟨by simp [genLoop], by simp [genLoop], ?_, ?_⟩
    · intro b hb; simp [genLoop] at hb
    · intro _; constructor <;> intro x hx <;> simp [genLoop] at hx
  | succ n ih =>
    obtain ⟨h14, hsum, hbat, hprov⟩ := ih
    rw [genLoop_succ]
    unfold genStep
    by_cases hc : 15 ≤ ((genLoop P iid topic seeds n).1 ++
        [mkRecord P n iid topic seeds]).length
    · rw [if_pos hc]
      have hlen : ((genLoop P iid topic seeds n).1 ++
          [mkRecord P n iid topic seeds]).length =
          (genLoop P iid topic seeds n).1.length + 1 := by simp
      rw [hlen] at hc
      refine ⟨by simp, ?_, ?_, ?_⟩
      · dsimp only
        simp only [List.map_append, List.sum_append, List.map_cons, List.sum_cons,
          List.map_nil, List.sum_nil, List.length_nil, hlen]
        omega
      · intro b hb
        dsimp only at hb
        rcases List.mem_append.mp hb with hb | hb
        · exact hbat b hb
        · have hbeq : b = (genLoop P iid topic seeds n).1 ++ [mkRecord P n iid topic seeds] := by
            simpa using hb
          rw [hbeq, hlen]
          omega
      · intro hne
        refine ⟨by intro r hr; simp at hr, ?_⟩
        intro b hb r hr
        rcases List.mem_append.mp hb with hb | hb
        · exact (hprov hne).2 b hb r hr
        · have hbeq : b = (genLoop P iid topic seeds n).1 ++ [mkRecord P n iid topic seeds] := by
            simpa using hb
          rw [hbeq] at hr
          rcases List.mem_append.mp hr with hr | hr
          · exact (hprov hne).1 r hr
          · have : r = mkRecord P n iid topic seeds := by simpa using hr
            rw [this]
            exact mkRecord_source_mem P n iid topic seeds hne
    · rw [if_neg hc]
      have hlen : ((genLoop P iid topic seeds n).1 ++
          [mkRecord P n iid topic seeds]).length =
          (genLoop P iid topic seeds n).1.length + 1 := by simp
      rw [hlen] at hc
      refine ⟨by dsimp only; rw [hlen]; omega, by dsimp only; rw [hlen]; omega, hbat, ?_⟩
      intro hne
      refine ⟨?_, (hprov hne).2⟩
      intro r hr
      rcases List.mem_append.mp hr with hr | hr
      · exact (hprov hne).1 r hr
      · have : r = mkRecord P n iid topic seeds := by simpa using hr
        rw [this]
        exact mkRecord_source_mem P n iid topic seeds hne

/-- After n iterations the pending batch holds exactly n mod 15 records. -/
lemma genLoop_pending_mod (P : GenParams) (iid : Option Nat) (topic : String)
    (seeds : List (String × String)) (n : Nat) :
    (genLoop P iid topic seeds n).1.length = n % 15 := by
  obtain ⟨h14, hsum, hbat, -⟩ := genLoop_inv P iid topic seeds n
  rw [sum_map_length_const _ hbat] at hsum
  omega

/-- C1: for every generation request with requestedCount n in [30, 75],
every seed corpus (whatever the fetches produced, the local fallback
included) and every sequence of random draws, the Generate tab loop
appends exactly n question records across all batch inserts to the
questions store, no more and no fewer. -/
theorem generate_volume (P : GenParams) (iid : Option Nat) (topic : String)
    (seeds : List (String × String)) (n : Nat) (_h30 : 30 ≤ n) (_h75 : n ≤ 75) :
    ((generateBatches P iid topic seeds n).map List.length).sum = n := by
  obtain ⟨h14, hsum, hbat, -⟩ := genLoop_inv P iid topic seeds n
  unfold generateBatches
  by_cases hp : (genLoop P iid topic seeds n).1.isEmpty
  · rw [if_pos hp]
    have hnil : (genLoop P iid topic seeds n).1 = [] := List.isEmpty_iff.mp hp
    rw [hnil] at hsum
    simpa using hsum
  · rw [if_neg hp]
    simp only [List.map_append, List.sum_append, List.map_cons, List.sum_cons,
      List.map_nil, List.sum_nil]
    omega

/-- C1 witness: the volume theorem instantiated at the trivial concrete
draws, the one-unit fallback corpus, and n = 40. -/
theorem generate_volume_witness :
    30 ≤ 40 ∧ 40 ≤ 75 ∧
      ((generateBatches trivParams none "DevOps" seeds0 40).map List.length).sum = 40 :=
  ⟨by decide, by decide,
   generate_volume trivParams none "DevOps" seeds0 40 (by decide) (by decide)⟩

/-- C2: over a non-empty seed corpus, every record the loop ever hands to
the questions store carries as source_url the identifier of a member of
that corpus; the paraphrasing step only rewrites q_text and never touches
the source_url field. -/
theorem generate_provenance (P : GenParams) (iid : Option Nat) (topic : String)
    (seeds : List (String × String)) (n : Nat) (hne : seeds ≠ []) :
    ∀ b ∈ generateBatches P iid topic seeds n, ∀ r ∈ b,
      r.source_url ∈ seeds.map Prod.fst := by
  obtain ⟨-, -, -, hprov⟩ := genLoop_inv P iid topic seeds n
  obtain ⟨hpend, hbatches⟩ := hprov hne
  intro b hb
  unfold generateBatches at hb
  by_cases hp : (genLoop P iid topic seeds n).1.isEmpty
  · rw [if_pos hp] at hb
    exact hbatches b hb
  · rw [if_neg hp] at hb
    rcases List.mem_append.mp hb with hb | hb
    · exact hbatches b hb
    · have hbeq : b = (genLoop P iid topic seeds n).1 := by simpa using hb
      rw [hbeq]
      exact hpend

/-- C2 witness: the provenance theorem instantiated at the trivial
concrete draws, the one-unit fallback corpus, and n = 30. -/
theorem generate_provenance_witness :
    seeds0 ≠ [] ∧
      ∀ b ∈ generateBatches trivParams none "DevOps" seeds0 30, ∀ r ∈ b,
        r.source_url ∈ seeds0.map Prod.fst :=
  ⟨by decide, generate_provenance trivParams none "DevOps" seeds0 30 (by decide)⟩

/-- C10: in every generation run the store is never handed an empty
record list, every non-final insert carries exactly 15 records, when
n is a multiple of 15 every insert (the final one included) carries
exactly 15 records, and otherwise the final insert carries exactly
n mod 15 records, a number between 1 and 14. -/
theorem generate_batch_sizes (P : GenParams) (iid : Option Nat) (topic : String)
    (seeds : List (String × String)) (n : Nat) :
    (∀ b ∈ generateBatches P iid topic seeds n, b ≠ []) ∧
    (∀ b ∈ (generateBatches P iid topic seeds n).dropLast, b.length = 15) ∧
    (n % 15 = 0 → ∀ b ∈ generateBatches P iid topic seeds n, b.length = 15) ∧
    (n % 15 ≠ 0 →
      ((generateBatches P iid topic seeds n).getLastD []).length = n % 15 ∧
      1 ≤ n % 15 ∧ n % 15 ≤ 14) := by
  obtain ⟨h14, hsum, hbat, -⟩ := genLoop_inv P iid topic seeds n
  have hmod := genLoop_pending_mod P iid topic seeds n
  unfold generateBatches
  by_cases hp : (genLoop P iid topic seeds n).1.isEmpty
  · rw [if_pos hp]
    have hnil : (genLoop P iid topic seeds n).1 = [] := List.isEmpty_iff.mp hp
    have hz : n % 15 = 0 := by rw [hnil] at hmod; simpa using hmod.symm
    refine ⟨?_, ?_, fun _ => hbat, fun hcontra => absurd hz hcontra⟩
    · intro b hb
      have := hbat b hb
      intro hbnil
      rw [hbnil] at this
      simp at this
    · intro b hb
      exact hbat b ((List.dropLast_sublist _).mem hb)
  · rw [if_neg hp]
    have hpne : (genLoop P iid topic seeds n).1 ≠ [] := by
      intro hc
      rw [hc] at hp
      exact hp rfl
    have hpos : 0 < (genLoop P iid topic seeds n).1.length := List.length_pos.mpr hpne
    refine ⟨?_, ?_, ?_, ?_⟩
    · intro b hb
      rcases List.mem_append.mp hb with hb | hb
      · have := hbat b hb
        intro hbnil
        rw [hbnil] at this
        simp at this
      · have hbeq : b = (genLoop P iid topic seeds n).1 := by simpa using hb
        rw [hbeq]
        exact hpne
    · intro b hb
      rw [List.dropLast_concat] at hb
      exact hbat b hb
    · intro hz
      omega
    · intro _
      rw [List.getLastD_concat]
      omega

/-- C10 witness: at n = 31 the remainder is non-zero and the final insert
carries 31 mod 15 = 1 record. -/
theorem generate_batch_sizes_witness :
    31 % 15 ≠ 0 ∧
      ((generateBatches trivParams none "DevOps" seeds0 31).getLastD []).length = 31 % 15 :=
  ⟨by decide,
   ((generate_batch_sizes trivParams none "DevOps" seeds0 31).2.2.2 (by decide)).1⟩

/-- C3 (counterexample): with a tagger that tags Kubernetes as the proper
noun category NNP and robust as the adjective category JJ, the code keeps
the proper noun and drops the adjective, while the extraction the claim
describes (common-noun categories or adjective categories) keeps the
adjective and drops the proper noun; the two disagree on this paragraph. -/
theorem extractTerms_counterexample :
    extractTerms wordsEnv "Kubernetes robust" = ["Kubernetes"] ∧
    extractTermsClaim wordsEnv "Kubernetes robust" = ["robust"] ∧
    extractTerms wordsEnv "Kubernetes robust" ≠
      extractTermsClaim wordsEnv "Kubernetes robust" := by
  decide

/-- C3 (amended): term extraction returns the tokens whose tag starts
with NN (any noun category, proper nouns included; adjective-tagged
tokens are not kept) and whose length exceeds 3 characters, duplicates
removed keeping the first occurrence, truncated to the first 3: the
result has at most 3 terms, holds no duplicates, is an order-preserving
selection from the NN-filtered token stream, and each returned term
occurs in the tagged tokens with an NN tag and length above 3. -/
theorem extractTerms_amended (env : Env) (para : String) :
    (extractTerms env para).length ≤ 3 ∧
    (extractTerms env para).Nodup ∧
    List.Sublist (extractTerms env para)
      (((env.pos_tag (env.word_tokenize para)).filter
        (fun p => pyStartsWith p.2 "NN" && decide (3 < p.1.length))).map Prod.fst) ∧
    (∀ w ∈ extractTerms env para, ∃ t, (w, t) ∈ env.pos_tag (env.word_tokenize para) ∧
      pyStartsWith t "NN" = true ∧ 3 < w.length) := by
  have hsub : List.Sublist (extractTerms env para)
      (((env.pos_tag (env.word_tokenize para)).filter
        (fun p => pyStartsWith p.2 "NN" && decide (3 < p.1.length))).map Prod.fst) := by
    unfold extractTerms dedupFirst
    exact (List.take_sublist 3 _).trans (dedupFirstAux_sublist _ [])
  refine ⟨?_, ?_, hsub, ?_⟩
  · unfold extractTerms
    rw [List.length_take]
    exact min_le_left 3 _
  · unfold extractTerms dedupFirst
    exact (dedupFirstAux_nodup _ []).sublist (List.take_sublist 3 _)
  · intro w hw
    have hw' := hsub.mem hw
    obtain ⟨p, hp, hpw⟩ := List.mem_map.mp hw'
    obtain ⟨hptags, hpcond⟩ := List.mem_filter.mp hp
    have hsplit : pyStartsWith p.2 "NN" = true ∧ 3 < p.1.length := by
      simpa using hpcond
    obtain ⟨w0, t0⟩ := p
    have hww : w0 = w := hpw
    refine ⟨t0, ?_, hsplit.1, ?_⟩
    · rw [← hww]
      exact hptags
    · rw [← hww]
      exact hsplit.2

/-- C4: at the failing input (requestedCount 31 over the fallback corpus,
the store rejecting the first insert call) only 16 of the 31 records are
persisted, yet the run report is the unconditional full-success message
of app.py line 227, character for character the report of a run whose
inserts all succeeded: the results of the insert calls are never read,
no failure and no partial count is surfaced. -/
theorem generate_insert_failure_ignored :
    persistedCount (generateRunOutcome trivParams none "DevOps" seeds0
      (fun k => decide (k ≠ 0)) 31) = 16 ∧
    (generateRunOutcome trivParams none "DevOps" seeds0
      (fun k => decide (k ≠ 0)) 31).results = [false, true, true] ∧
    (generateRunOutcome trivParams none "DevOps" seeds0
      (fun k => decide (k ≠ 0)) 31).report =
      (generateRunOutcome trivParams none "DevOps" seeds0 (fun _ => true) 31).report ∧
    (generateRunOutcome trivParams none "DevOps" seeds0
      (fun k => decide (k ≠ 0)) 31).report = successMessage 31 := by
  refine ⟨by decide, by decide, rfl, rfl⟩

/-- C5: the sentence list paraphrase_simple builds just before the final
join is a permutation of the per-sentence rewrites (the optional shuffle,
which permutes as random.shuffle does, never drops or adds a sentence),
so its length equals the length of the tokenized input; and on the empty
string, which the sentence tokenizer maps to no sentences, the function
returns the empty string without failing. -/
theorem paraphrase_sentence_count (env : Env) (text : String)
    (hsh : ∀ l : List String, List.Perm (env.shuffle l) l) :
    (paraphrase_sents env text).length = (env.sent_tokenize text).length ∧
    List.Perm (paraphrase_sents env text)
      (paraphraseSentsFrom env 0 (env.sent_tokenize text)) ∧
    (env.sent_tokenize "" = [] → paraphrase_simple env "" = "") := by
  have hperm : List.Perm (paraphrase_sents env text)
      (paraphraseSentsFrom env 0 (env.sent_tokenize text)) := by
    unfold paraphrase_sents
    by_cases hc : 1 < (paraphraseSentsFrom env 0 (env.sent_tokenize text)).length ∧
        env.shuffleCoin = true
    · rw [if_pos hc]
      exact hsh _
    · rw [if_neg hc]
  refine ⟨?_, hperm, ?_⟩
  · rw [hperm.length_eq]
    exact paraphraseSentsFrom_length env _ 0
  · intro h0
    unfold paraphrase_simple paraphrase_sents
    rw [h0]
    rfl

/-- C5 witness: the sentence-count theorem instantiated at a concrete
environment whose shuffle is the identity permutation. -/
theorem paraphrase_sentence_count_witness :
    (paraphrase_sents wordsEnv "a").length = (wordsEnv.sent_tokenize "a").length :=
  (paraphrase_sentence_count wordsEnv "a" (fun l => List.Perm.refl l)).1

/-- C6: in the tagged word list of any sentence of any input, a token
whose tag lies outside the NN (noun) and JJ (adjective) categories is
returned unchanged by the paraphraser at its position, and whenever a
token is changed the replacement is one of its wordnet lemma candidates
whose lower-cased surface differs from the lower-cased original word. -/
theorem paraphrase_non_substitution (env : Env) (si : Nat) (sent : String)
    (wi : Nat) (w t : String)
    (hget : (env.pos_tag (env.word_tokenize sent))[wi]? = some (w, t)) :
    ((pyStartsWith t "NN" || pyStartsWith t "JJ") = false →
      (paraphraseWords env si (env.pos_tag (env.word_tokenize sent)))[wi]? = some w) ∧
    (∀ w', (paraphraseWords env si (env.pos_tag (env.word_tokenize sent)))[wi]? = some w' →
      w' ≠ w →
      w' ∈ (env.synsetLemmas w).filter (fun x => pyLower x != pyLower w) ∧
      pyLower w' ≠ pyLower w) := by
  have hpos : (paraphraseWords env si (env.pos_tag (env.word_tokenize sent)))[wi]? =
      some (substituteWord env si (0 + wi) w t) := by
    unfold paraphraseWords
    rw [paraphraseWordsFrom_getElem env si _ 0 wi, hget]
    rfl
  constructor
  · intro hout
    rw [hpos, substituteWord_not_content env si (0 + wi) w t hout]
  · intro w' hw' hne
    rw [hpos] at hw'
    have hw'eq : w' = substituteWord env si (0 + wi) w t := by
      exact (Option.some.injEq _ _).mp hw'.symm
    rcases substituteWord_cases env si (0 + wi) w t with hcase | hcase
    · exact absurd (hw'eq.trans hcase) hne
    · rw [hw'eq]
      exact hcase

/-- C6 witness: the non-substitution theorem applied to a determiner
token, which the paraphraser leaves unchanged. -/
theorem paraphrase_non_substitution_witness :
    (paraphraseWords wordsEnv 0 (wordsEnv.pos_tag (wordsEnv.word_tokenize "the")))[0]? =
      some "the" :=
  (paraphrase_non_substitution wordsEnv 0 "the" 0 "the" "DT" (by decide)).1 (by decide)

/-- Helper: a fetch that returned nothing or empty text contributes no
seed unit (the if t: truthiness check of app.py lines 195 and 208). -/
lemma keepFetched_none (fetch : String → Option String) (u : String)
    (h : fetch u = none ∨ fetch u = some "") : keepFetched fetch u = none := by
  rcases h with h | h <;> simp [keepFetched, h]

/-- C7: when no caller-supplied URL yields non-empty text and the curated
defaults for the lower-cased first topic word also yield nothing (in
particular when that word is not a key of the curated map, whose default
list is then empty), the seed corpus is exactly one unit whose identifier
is local_fallback and whose text is the templated paragraph about the
topic. -/
theorem buildSeedCorpus_fallback (fetch : String → Option String)
    (topic extra_urls key : String) (tl : List String)
    (hkey : topicWords topic = key :: tl)
    (hurls : ∀ u ∈ parseUrls extra_urls, fetch u = none ∨ fetch u = some "")
    (hdef : ∀ u ∈ lookupDefault key, fetch u = none ∨ fetch u = some "") :
    buildSeedCorpus fetch topic extra_urls =
      Except.ok [("local_fallback", fallbackParagraph topic)] := by
  have h1 : (parseUrls extra_urls).filterMap (keepFetched fetch) = [] :=
    List.filterMap_eq_nil_iff.mpr (fun u hu => keepFetched_none fetch u (hurls u hu))
  have h2 : (lookupDefault key).filterMap (keepFetched fetch) = [] :=
    List.filterMap_eq_nil_iff.mpr (fun u hu => keepFetched_none fetch u (hdef u hu))
  simp [buildSeedCorpus, h1, hkey, h2]

/-- C7 witness: the fallback theorem at a topic outside the curated map
(kubernetes), a blank URL box and a fetch that always fails. -/
theorem buildSeedCorpus_fallback_witness :
    topicWords "kubernetes" = "kubernetes" :: [] ∧
      buildSeedCorpus (fun _ => none) "kubernetes" "" =
        Except.ok [("local_fallback", fallbackParagraph "kubernetes")] :=
  ⟨by decide,
   buildSeedCorpus_fallback (fun _ => none) "kubernetes" "" "kubernetes" []
     (by decide) (by decide) (by decide)⟩

/-- C9: when no caller-supplied URL yields non-empty text and the topic
holds no non-whitespace character, the corpus construction evaluates
topic.lower().split()[0] on an empty word list at app.py line 205 and the
request fails with IndexError before the local_fallback synthesis can
run: the fallback chain is total only for topics with at least one word. -/
theorem buildSeedCorpus_empty_topic (fetch : String → Option String)
    (topic extra_urls : String)
    (htopic : topicWords topic = [])
    (hurls : ∀ u ∈ parseUrls extra_urls, fetch u = none ∨ fetch u = some "") :
    buildSeedCorpus fetch topic extra_urls =
      Except.error "IndexError: list index out of range" := by
  have h1 : (parseUrls extra_urls).filterMap (keepFetched fetch) = [] :=
    List.filterMap_eq_nil_iff.mpr (fun u hu => keepFetched_none fetch u (hurls u hu))
  simp [buildSeedCorpus, h1, htopic]

/-- C9 witness: a whitespace-only topic with a blank URL box and a fetch
that always fails reaches the IndexError branch. -/
theorem buildSeedCorpus_empty_topic_witness :
    topicWords "   " = [] ∧
      buildSeedCorpus (fun _ => none) "   " "" =
        Except.error "IndexError: list index out of range" :=
  ⟨by decide,
   buildSeedCorpus_empty_topic (fun _ => none) "   " "" (by decide) (by decide)⟩

/-- C8: the fetcher is total and returns none on every failure path
(network, timeout, status, parse), and on success it returns the joined
paragraph texts of the article container when one is present, otherwise
the joined paragraph texts of the whole page, truncated so that the
returned text never exceeds max_chars characters. -/
theorem fetch_text_spec (max_chars : Nat) :
    fetch_text_from_url none max_chars = none ∧
    (∀ d : FetchedDoc, ∀ ps, d.articleParas = some ps →
      fetch_text_from_url (some d) max_chars =
        some (truncTo max_chars (joinWith " " ps))) ∧
    (∀ d : FetchedDoc, d.articleParas = none →
      fetch_text_from_url (some d) max_chars =
        some (truncTo max_chars (joinWith " " d.allParas))) ∧
    (∀ d : FetchedDoc, ∀ s, fetch_text_from_url (some d) max_chars = some s →
      s.length ≤ max_chars) := by
  refine ⟨rfl, ?_, ?_, ?_⟩
  · intro d ps hart
    simp [fetch_text_from_url, hart]
  · intro d hart
    simp [fetch_text_from_url, hart]
  · intro d s hs
    rcases hart : d.articleParas with _ | ps
    · simp [fetch_text_from_url, hart] at hs
      rw [← hs]
      exact truncTo_length_le max_chars _
    · simp [fetch_text_from_url, hart] at hs
      rw [← hs]
      exact truncTo_length_le max_chars _

/-- A concrete successful page for the fetch witness: an article holding
two paragraphs. -/
def doc0 : FetchedDoc := ⟨some ["hello", "world"], []⟩

/-- C8 witness: the fetch theorem applied to the concrete page. -/
theorem fetch_text_spec_witness :
    fetch_text_from_url (some doc0) 5 = some (truncTo 5 (joinWith " " ["hello", "world"])) :=
  (fetch_text_spec 5).2.1 doc0 ["hello", "world"] rfl

end AppModel
